import Mathlib

/-!
# Verification of an in-memory vector similarity search engine

Shallow embedding of `src/main.rs`: an in-memory vector store grouped into
named collections, answering top-k queries by cosine similarity.

Modelling conventions:
* `f32` values are modelled as real numbers (`ℝ`): the specification states
  exact algebraic identities (reflexivity, symmetry, the zero-magnitude
  policy), which live at the level of idealized arithmetic.
* `Uuid` (an opaque 128-bit identifier with decidable equality) is modelled
  as `Nat`.
* `HashMap` is modelled as an association list together with the hash-map
  invariant that keys are unique (`Nodup` on the key list); iteration order
  is arbitrary, which the model captures by quantifying over all association
  lists satisfying the invariant.
* `thread::spawn`/`join` of a pure closure over copied data (`to_vec`)
  returns exactly the closure's value, so each of the three tasks inside
  `cos` is modelled by the pure function its closure computes.
* Rust's `sort_by` is a comparison sort; with the comparator
  `b.1.partial_cmp(&a.1).unwrap_or(Equal)` it orders pairs by descending
  score (over ℝ, `partial_cmp` never fails).  It is modelled by
  `List.insertionSort` with the corresponding relation; all claims are about
  order/permutation properties that any such sort satisfies (the spec
  declares tie order unspecified).
-/

namespace VecDB

/-- `Uuid`: opaque caller-supplied identifier (128-bit value in the source),
modelled as `Nat`. -/
abbrev Uuid := Nat

noncomputable section

/-- The body of the `produit_scalaire` thread closure in `cos`:
`vector1.iter().zip(vector2.iter()).map(|(x, y)| x * y).sum::<f32>()`.
Note Rust's `zip` truncates to the shorter of the two iterators. -/
def dotProduct (vector1 vector2 : List ℝ) : ℝ :=
  (List.zipWith (fun x y => x * y) vector1 vector2).sum

/-- The sum of squares appearing in both magnitude closures:
`vector.iter().map(|x| x * x).sum()`. -/
def sumSquares (vector : List ℝ) : ℝ :=
  (vector.map (fun x => x * x)).sum

/-- The body of the two magnitude thread closures in `cos`:
`somme_carre.sqrt()` where `somme_carre` is the sum of squares. -/
def magnitude (vector : List ℝ) : ℝ :=
  Real.sqrt (sumSquares vector)

/-- `fn cos(vector1: &[f32], vector2: &[f32]) -> f32` (src/main.rs:146-184).
The three thread handles are joined before combining, so the function's value
is the pure combination of the three closures' results. -/
def cos (vector1 vector2 : List ℝ) : ℝ :=
  let produit_scalaire := dotProduct vector1 vector2
  let magnitude1 := magnitude vector1
  let magnitude2 := magnitude vector2
  if magnitude1 = 0 ∨ magnitude2 = 0 then 0
  else produit_scalaire / (magnitude1 * magnitude2)

/-- `struct Collection { documents: HashMap<Uuid, Vec<f32>> }`
(src/main.rs:9-11).  The hash map is an association list whose keys are
unique (`keysNodup`, the `HashMap` invariant). -/
structure Collection where
  documents : List (Uuid × List ℝ)
  keysNodup : (documents.map Prod.fst).Nodup

/-- `Collection::new` (src/main.rs:15-19): the empty map. -/
def Collection.new : Collection := ⟨[], List.nodup_nil⟩

/-- `Collection::upsert` (src/main.rs:26-28): `HashMap::insert`, which
replaces any existing binding for `key`. -/
def Collection.upsert (c : Collection) (key : Uuid) (vector : List ℝ) :
    Collection where
  documents := (key, vector) :: c.documents.filter (fun p => p.1 ≠ key)
  keysNodup := by
    refine List.nodup_cons.mpr ⟨fun hmem => ?_, ?_⟩
    · obtain ⟨p, hp, hfst⟩ := List.mem_map.mp hmem
      have hne : p.1 ≠ key := by simpa using List.of_mem_filter hp
      exact hne hfst
    · exact c.keysNodup.sublist ((List.filter_sublist c.documents).map Prod.fst)

/-- `Collection::read` (src/main.rs:38-40): `HashMap::get`. -/
def Collection.read (c : Collection) (key : Uuid) : Option (List ℝ) :=
  List.lookup key c.documents

/-- `Collection::delete` (src/main.rs:47-49): `HashMap::remove`. -/
def Collection.delete (c : Collection) (key : Uuid) : Collection where
  documents := c.documents.filter (fun p => p.1 ≠ key)
  keysNodup := c.keysNodup.sublist ((List.filter_sublist c.documents).map Prod.fst)

/-- The descending-score ordering used by `results.sort_by(|a, b|
b.1.partial_cmp(&a.1).unwrap_or(std::cmp::Ordering::Equal))`
(src/main.rs:72): `a` precedes `b` when `a`'s score is at least `b`'s. -/
def scoreDesc (a b : Uuid × ℝ) : Prop := b.2 ≤ a.2

instance : DecidableRel scoreDesc := fun a b => Real.decidableLE b.2 a.2

instance : IsTotal (Uuid × ℝ) scoreDesc := ⟨fun a b => le_total b.2 a.2⟩

instance : IsTrans (Uuid × ℝ) scoreDesc :=
  ⟨fun _ _ _ h1 h2 => le_trans h2 h1⟩

/-- `Collection::search` (src/main.rs:59-74): filter out dimension-mismatched
documents, score the rest with `cos(request, vector)`, sort by descending
score, keep the first `k`. -/
def Collection.search (c : Collection) (request : List ℝ) (k : Nat) :
    List (Uuid × ℝ) :=
  let results := c.documents.filterMap (fun p =>
    if p.2.length ≠ request.length then none
    else some (p.1, cos request p.2))
  (List.insertionSort scoreDesc results).take k

/-- `struct BaseDeDonnees { collections: HashMap<String, Collection> }`
(src/main.rs:78-80), with the same hash-map-as-association-list model. -/
structure BaseDeDonnees where
  collections : List (String × Collection)
  keysNodup : (collections.map Prod.fst).Nodup

/-- `BaseDeDonnees::new` (src/main.rs:84-88). -/
def BaseDeDonnees.new : BaseDeDonnees := ⟨[], List.nodup_nil⟩

/-- `BaseDeDonnees::add` (src/main.rs:94-96): `HashMap::insert` of a fresh
`Collection::new()` under `nom`, replacing any existing binding. -/
def BaseDeDonnees.add (b : BaseDeDonnees) (nom : String) : BaseDeDonnees where
  collections := (nom, Collection.new) ::
    b.collections.filter (fun p => p.1 ≠ nom)
  keysNodup := by
    refine List.nodup_cons.mpr ⟨fun hmem => ?_, ?_⟩
    · obtain ⟨p, hp, hfst⟩ := List.mem_map.mp hmem
      have hne : p.1 ≠ nom := by simpa using List.of_mem_filter hp
      exact hne hfst
    · exact b.keysNodup.sublist ((List.filter_sublist b.collections).map Prod.fst)

/-- `BaseDeDonnees::get` (src/main.rs:106-108). -/
def BaseDeDonnees.get (b : BaseDeDonnees) (nom : String) : Option Collection :=
  List.lookup nom b.collections

/-- `BaseDeDonnees::search` (src/main.rs:130-135). -/
def BaseDeDonnees.search (b : BaseDeDonnees) (cname : String)
    (request : List ℝ) (k : Nat) : Option (List (Uuid × ℝ)) :=
  (b.get cname).map (fun collection => collection.search request k)

/-- Modelled from the spec (§4.1 concurrency note, for the refinement claim):
the naive sequential cosine similarity — compute the dot product, then each
magnitude in turn, then combine with the zero-magnitude guard. -/
def cosSequentialSpec (vector1 vector2 : List ℝ) : ℝ :=
  let d := (List.zipWith (fun x y => x * y) vector1 vector2).sum
  let m1 := Real.sqrt ((vector1.map (fun x => x * x)).sum)
  let m2 := Real.sqrt ((vector2.map (fun y => y * y)).sum)
  if m1 = 0 ∨ m2 = 0 then 0 else d / (m1 * m2)

/-! ## Basic facts about the similarity function -/

lemma sumSquares_nonneg (v : List ℝ) : 0 ≤ sumSquares v := by
  refine List.sum_nonneg (fun x hx => ?_)
  obtain ⟨y, _, rfl⟩ := List.mem_map.mp hx
  exact mul_self_nonneg y

lemma magnitude_eq_zero_iff (v : List ℝ) : magnitude v = 0 ↔ sumSquares v = 0 :=
  Real.sqrt_eq_zero (sumSquares_nonneg v)

lemma dotProduct_self (v : List ℝ) : dotProduct v v = sumSquares v := by
  simp [dotProduct, sumSquares]

lemma magnitude_replicate_zero (n : Nat) :
    magnitude (List.replicate n (0 : ℝ)) = 0 := by
  simp [magnitude, sumSquares, List.map_replicate]

lemma zipWith_take_take (f : ℝ → ℝ → ℝ) :
    ∀ v1 v2 : List ℝ,
      List.zipWith f (v1.take (min v1.length v2.length))
        (v2.take (min v1.length v2.length)) = List.zipWith f v1 v2
  | [], _ => by simp
  | _ :: _, [] => by simp
  | a :: as, b :: bs => by
    simpa [Nat.succ_min_succ] using zipWith_take_take f as bs

/-- In an association list with `Nodup` keys, a key determines its value. -/
lemma nodup_keys_value_eq {l : List (Uuid × List ℝ)}
    (h : (l.map Prod.fst).Nodup) {k : Uuid} {v w : List ℝ}
    (hv : (k, v) ∈ l) (hw : (k, w) ∈ l) : v = w := by
  induction l with
  | nil => cases hv
  | cons a tl ih =>
    rw [List.map_cons, List.nodup_cons] at h
    rcases List.mem_cons.mp hv with hva | hvt
    · rcases List.mem_cons.mp hw with hwa | hwt
      · exact congrArg Prod.snd (hva.trans hwa.symm)
      · rw [← hva] at h
        exact absurd (List.mem_map_of_mem Prod.fst hwt) h.1
    · rcases List.mem_cons.mp hw with hwa | hwt
      · rw [← hwa] at h
        exact absurd (List.mem_map_of_mem Prod.fst hvt) h.1
      · exact ih h.2 hvt hwt

/-- Every element of `search`'s candidate list comes from a stored document of
matching dimension, scored with `cos request ·`. -/
lemma mem_search_results {c : Collection} {request : List ℝ} {p : Uuid × ℝ}
    (hp : p ∈ c.documents.filterMap (fun q =>
      if q.2.length ≠ request.length then none
      else some (q.1, cos request q.2))) :
    ∃ v, (p.1, v) ∈ c.documents ∧ v.length = request.length ∧
      p.2 = cos request v := by
  obtain ⟨q, hq, hpq⟩ := List.mem_filterMap.mp hp
  by_cases hlen : q.2.length ≠ request.length
  · rw [if_pos hlen] at hpq
    cases hpq
  · rw [if_neg hlen] at hpq
    obtain rfl := Option.some.inj hpq
    push_neg at hlen
    exact ⟨q.2, hq, hlen, rfl⟩

lemma search_results_length (l : List (Uuid × List ℝ)) (request : List ℝ) :
    (l.filterMap (fun p =>
      if p.2.length ≠ request.length then none
      else some (p.1, cos request p.2))).length
      = (l.filter (fun p => p.2.length = request.length)).length := by
  induction l with
  | nil => rfl
  | cons a tl ih =>
    by_cases h : a.2.length = request.length
    · rw [List.filterMap_cons_some (by rw [if_neg (fun hn => hn h)]),
        List.filter_cons_of_pos (by simpa using h), List.length_cons,
        List.length_cons, ih]
    · rw [List.filterMap_cons_none (by rw [if_pos h]),
        List.filter_cons_of_neg (by simpa using h), ih]

/-- The candidate list's key column is a sublist of the store's key column
(the filter keeps keys unchanged and preserves order). -/
lemma search_results_keys_sublist (l : List (Uuid × List ℝ))
    (request : List ℝ) :
    ((l.filterMap (fun p =>
      if p.2.length ≠ request.length then none
      else some (p.1, cos request p.2))).map Prod.fst).Sublist
      (l.map Prod.fst) := by
  induction l with
  | nil => simp
  | cons a tl ih =>
    by_cases h : a.2.length = request.length
    · rw [List.filterMap_cons_some (by rw [if_neg (fun hn => hn h)]),
        List.map_cons, List.map_cons]
      exact ih.cons₂ a.1
    · rw [List.filterMap_cons_none (by rw [if_pos h]), List.map_cons]
      exact ih.cons a.1

/-! ## Theorems for the claims -/

/-- C3: for every vector `V` with strictly positive Euclidean norm,
`cos V V = 1` exactly; for every `V` with norm exactly zero, `cos V V = 0`. -/
theorem cos_self (V : List ℝ) :
    (0 < magnitude V → cos V V = 1) ∧ (magnitude V = 0 → cos V V = 0) := by
  constructor
  · intro h
    have hm : magnitude V ≠ 0 := ne_of_gt h
    have hS : sumSquares V ≠ 0 := fun h0 => hm ((magnitude_eq_zero_iff V).mpr h0)
    simp only [cos, dotProduct_self]
    rw [if_neg (by push_neg; exact ⟨hm, hm⟩)]
    unfold magnitude
    rw [Real.mul_self_sqrt (sumSquares_nonneg V)]
    exact div_self hS
  · intro h
    simp [cos, h]

/-- Witness for C3 at concrete inputs: `V = [1, 0]` has positive magnitude and
self-similarity `1`; `V = [0]` has magnitude `0` and self-similarity `0`. -/
theorem cos_self_witness :
    (0 < magnitude [(1 : ℝ), 0] ∧ cos [(1 : ℝ), 0] [(1 : ℝ), 0] = 1) ∧
    (magnitude [(0 : ℝ)] = 0 ∧ cos [(0 : ℝ)] [(0 : ℝ)] = 0) := by
  have h1 : 0 < magnitude [(1 : ℝ), 0] := by
    simp [magnitude, sumSquares]
  have h2 : magnitude [(0 : ℝ)] = 0 := by
    simp [magnitude, sumSquares]
  exact ⟨⟨h1, (cos_self [(1 : ℝ), 0]).1 h1⟩, ⟨h2, (cos_self [(0 : ℝ)]).2 h2⟩⟩

/-- C4: for equal-length vectors, a zero magnitude on either side makes the
similarity exactly `0` (a plain number, no error); and a collection holding
only the zero vector, searched with any nonzero query of the same length,
returns that document with score `0`. -/
theorem cos_zero_magnitude_policy :
    (∀ A B : List ℝ, A.length = B.length →
        magnitude A = 0 ∨ magnitude B = 0 → cos A B = 0) ∧
    (∀ (i : Uuid) (q : List ℝ), 0 < magnitude q →
        Collection.search ⟨[(i, List.replicate q.length (0 : ℝ))], by simp⟩ q 1
          = [(i, 0)]) := by
  constructor
  · intro A B _ h
    simp [cos, h]
  · intro i q _
    simp [Collection.search, cos, magnitude_replicate_zero]

/-- Witness for C4 at concrete inputs: `A = [0, 0]`, `B = [3, 4]` (equal
lengths, `‖A‖ = 0`), and the singleton zero-vector collection queried with
`[1, 0]`. -/
theorem cos_zero_magnitude_policy_witness :
    (([(0 : ℝ), 0].length = [(3 : ℝ), 4].length ∧
        magnitude [(0 : ℝ), 0] = 0 ∧ cos [(0 : ℝ), 0] [(3 : ℝ), 4] = 0) ∧
     (0 < magnitude [(1 : ℝ), 0] ∧
        Collection.search ⟨[(7, List.replicate ([(1 : ℝ), 0]).length (0 : ℝ))], by simp⟩
          [(1 : ℝ), 0] 1 = [(7, 0)])) := by
  have hA : magnitude [(0 : ℝ), 0] = 0 := by
    simp [magnitude, sumSquares]
  have hq : 0 < magnitude [(1 : ℝ), 0] := by
    simp [magnitude, sumSquares]
  exact ⟨⟨rfl, hA, cos_zero_magnitude_policy.1 _ _ rfl (Or.inl hA)⟩,
    ⟨hq, cos_zero_magnitude_policy.2 7 [(1 : ℝ), 0] hq⟩⟩

/-- C6: the three concurrently computed reductions of `cos` (dot product and
the two magnitudes, joined before combining) give exactly the value of the
spec's naive sequential definition; scheduling has no observable effect. -/
theorem cos_refines_sequential (vector1 vector2 : List ℝ) :
    cos vector1 vector2 = cosSequentialSpec vector1 vector2 := rfl

/-- C7: the similarity function is symmetric on equal-length vectors. -/
theorem cos_symm (A B : List ℝ) (h : A.length = B.length) :
    cos A B = cos B A := by
  have hd : dotProduct A B = dotProduct B A :=
    congrArg List.sum (List.zipWith_comm_of_comm _ mul_comm A B)
  simp only [cos]
  rw [hd, mul_comm (magnitude A) (magnitude B)]
  exact if_congr or_comm rfl rfl

/-- Witness for C7 at concrete equal-length inputs `[1, 2]` and `[3, 4]`. -/
theorem cos_symm_witness :
    ([(1 : ℝ), 2].length = [(3 : ℝ), 4].length) ∧
    cos [(1 : ℝ), 2] [(3 : ℝ), 4] = cos [(3 : ℝ), 4] [(1 : ℝ), 2] :=
  ⟨rfl, cos_symm _ _ rfl⟩

/-- C8: `upsert` immediately followed by `read` of the same identifier
returns exactly the just-inserted vector, whether or not the identifier was
present before (with any previous dimensionality). -/
theorem upsert_read (c : Collection) (key : Uuid) (vector : List ℝ) :
    (c.upsert key vector).read key = some vector := by
  simp [Collection.read, Collection.upsert, List.lookup]

/-- C10: `BaseDeDonnees::add` with an existing name replaces the stored
collection by a fresh empty one: afterwards `get` returns `Collection.new`,
whose document store is empty. -/
theorem add_replaces_with_empty (b : BaseDeDonnees) (nom : String) :
    (b.add nom).get nom = some Collection.new ∧ Collection.new.documents = [] := by
  constructor
  · simp [BaseDeDonnees.get, BaseDeDonnees.add, List.lookup]
  · rfl

/-- C5: the length of `search request k` is exactly the minimum of `k` and
the number of stored documents whose vector length equals the query's (so
`k = 0`, no eligible documents, and fewer eligible documents than `k` all
behave as the spec says). -/
theorem search_length_eq_min (c : Collection) (request : List ℝ) (k : Nat) :
    (c.search request k).length
      = min k (c.documents.filter
          (fun p => p.2.length = request.length)).length := by
  simp only [Collection.search]
  rw [List.length_take, List.length_insertionSort, search_results_length]

/-- C2: `search request k` returns at most `k` results, sorted by descending
score, and never includes an identifier whose stored vector length differs
from the query's length. -/
theorem search_bounded_sorted_eligible (c : Collection) (request : List ℝ)
    (k : Nat) :
    (c.search request k).length ≤ k ∧
    List.Pairwise scoreDesc (c.search request k) ∧
    (∀ p ∈ c.search request k, ∀ v, (p.1, v) ∈ c.documents →
      v.length = request.length) := by
  refine ⟨?_, ?_, ?_⟩
  · exact List.length_take_le k _
  · exact List.Pairwise.sublist (List.take_sublist _ _)
      (List.sorted_insertionSort scoreDesc _)
  · intro p hp v hv
    have hp' : p ∈ c.documents.filterMap (fun q =>
        if q.2.length ≠ request.length then none
        else some (q.1, cos request q.2)) := by
      have := (List.take_sublist _ _).subset hp
      exact (List.mem_insertionSort scoreDesc).mp this
    obtain ⟨w, hw, hwlen, _⟩ := mem_search_results hp'
    exact nodup_keys_value_eq c.keysNodup hv hw ▸ hwlen

/-- C9: every result of `search` carries an identifier currently stored in
the collection, its score is `cos request v` for that identifier's stored
vector `v`, and no identifier appears twice in the result list. -/
theorem search_results_stored_unique (c : Collection) (request : List ℝ)
    (k : Nat) :
    (∀ p ∈ c.search request k,
      ∃ v, (p.1, v) ∈ c.documents ∧ p.2 = cos request v) ∧
    ((c.search request k).map Prod.fst).Nodup := by
  constructor
  · intro p hp
    have hp' : p ∈ c.documents.filterMap (fun q =>
        if q.2.length ≠ request.length then none
        else some (q.1, cos request q.2)) := by
      have := (List.take_sublist _ _).subset hp
      exact (List.mem_insertionSort scoreDesc).mp this
    obtain ⟨v, hv, _, hscore⟩ := mem_search_results hp'
    exact ⟨v, hv, hscore⟩
  · have hres : ((c.documents.filterMap (fun q =>
        if q.2.length ≠ request.length then none
        else some (q.1, cos request q.2))).map Prod.fst).Nodup :=
      c.keysNodup.sublist (search_results_keys_sublist _ _)
    have hsort : ((List.insertionSort scoreDesc
        (c.documents.filterMap (fun q =>
          if q.2.length ≠ request.length then none
          else some (q.1, cos request q.2)))).map Prod.fst).Nodup :=
      (((List.perm_insertionSort scoreDesc _).map Prod.fst).nodup_iff).mpr hres
    simpa only [Collection.search] using
      hsort.sublist ((List.take_sublist k _).map Prod.fst)

/-- C1 counterexample: the similarity function accepts two vectors of
different lengths and silently returns a plain numeric score (here a perfect
`1` for a 2-dimensional versus a 1-dimensional vector) instead of being
unrepresentable or failing fast. -/
theorem cos_length_mismatch_counterexample :
    ([(1 : ℝ), 0].length ≠ [(1 : ℝ)].length) ∧
    cos [(1 : ℝ), 0] [(1 : ℝ)] = 1 := by
  constructor
  · simp
  · norm_num [cos, dotProduct, magnitude, sumSquares]

/-- C1 amended: on vectors of unequal length the similarity function neither
rejects the call nor fails: it silently computes the dot product over the
common prefix only (Rust's `zip` truncation) while the magnitudes cover each
full vector, and returns that ordinary quotient (or `0` under the
zero-magnitude guard); no out-of-bounds access occurs. -/
theorem cos_length_mismatch_amended (v1 v2 : List ℝ)
    (h : v1.length ≠ v2.length) :
    cos v1 v2 =
      if magnitude v1 = 0 ∨ magnitude v2 = 0 then 0
      else dotProduct (v1.take (min v1.length v2.length))
          (v2.take (min v1.length v2.length))
          / (magnitude v1 * magnitude v2) := by
  simp only [cos, dotProduct, zipWith_take_take]

/-- Witness for the amended C1 at `v1 = [1, 0]`, `v2 = [1]`. -/
theorem cos_length_mismatch_amended_witness :
    ([(1 : ℝ), 0].length ≠ [(1 : ℝ)].length) ∧
    cos [(1 : ℝ), 0] [(1 : ℝ)] =
      (if magnitude [(1 : ℝ), 0] = 0 ∨ magnitude [(1 : ℝ)] = 0 then 0
       else dotProduct ([(1 : ℝ), 0].take
              (min [(1 : ℝ), 0].length [(1 : ℝ)].length))
            ([(1 : ℝ)].take (min [(1 : ℝ), 0].length [(1 : ℝ)].length))
            / (magnitude [(1 : ℝ), 0] * magnitude [(1 : ℝ)])) :=
  ⟨by simp, cos_length_mismatch_amended _ _ (by simp)⟩

end

end VecDB
